import Mathlib

/-!
Verification of the token-offchain-metadata library.

JavaScript strings are modelled as lists of Unicode code points (`JSString`);
all strings handled by the library are ASCII, where code points and UTF-16
code units coincide, so `slice`, `length` and per-character operations on the
model agree with the source.
-/

/-- A JavaScript string, as a list of code points. -/
abbrev JSString := List Nat

/-- Embed a Lean string literal into the model. -/
def jstr (s : String) : JSString := s.data.map Char.toNat

/-- Fuel-indexed digit production; `fuel > n` always suffices. -/
def natToDecimalCharsAux (fuel n : Nat) : JSString :=
  match fuel with
  | 0 => []
  | fuel + 1 =>
    if n < 10 then [48 + n]
    else natToDecimalCharsAux fuel (n / 10) ++ [48 + n % 10]

/-- Modelled from the spec: JavaScript `Number.prototype.toString` for
non-negative integers (the library only stringifies validated positive chain
IDs), producing the usual decimal digit string. -/
def natToDecimalChars (n : Nat) : JSString :=
  natToDecimalCharsAux (n + 1) n

/-- Decimal value of a digit string, used to show `natToDecimalChars` is
injective. -/
def decimalValue (s : JSString) : Nat :=
  s.foldl (fun acc c => 10 * acc + (c - 48)) 0

/-- An address on a specific chain (`ChainAddress` from `chain-address.ts`).
Chain IDs are positive integers per the token-list schema; the model uses
`Nat`. -/
structure ChainAddress where
  chainId : Nat
  address : JSString
  deriving DecidableEq, Repr

/-- `getChainAddressKey` from `chain-address.ts`: the template literal
`` `${chainAddress.chainId}_${chainAddress.address.slice(2)}` ``. -/
def getChainAddressKey (chainAddress : ChainAddress) : JSString :=
  natToDecimalChars chainAddress.chainId ++ jstr "_" ++ chainAddress.address.drop 2

/-! ### `isAddress` and its LRU cache (`chain-address.ts`) -/

/-- Modelled from the spec: JavaScript `toLocaleLowerCase` on the Basic Latin
range (`A`–`Z` maps to `a`–`z`). No code point outside this range is
case-mapped into the ASCII range relevant to the address pattern by the
default-locale lowercase, so the predicates below are unaffected by the
restriction. -/
def jsCodeToLower (c : Nat) : Nat :=
  if 65 ≤ c ∧ c ≤ 90 then c + 32 else c

/-- `toLocaleLowerCase` lifted to strings. -/
def jsToLowerCase (s : JSString) : JSString := s.map jsCodeToLower

/-- One character of the class `[a-f0-9]` from `addressRegex`. -/
def isLowerHexCode (c : Nat) : Bool :=
  decide (97 ≤ c ∧ c ≤ 102) || decide (48 ≤ c ∧ c ≤ 57)

/-- `addressRegex.test`, the regex being `/^0x[a-f0-9]{40}$/`
(`chain-address.ts`): the anchored pattern `0` then `x` then exactly 40
characters of the class. -/
def addressRegexTest (s : JSString) : Bool :=
  match s with
  | c0 :: c1 :: rest => c0 == 48 && c1 == 120 && rest.length == 40 && rest.all isLowerHexCode
  | _ => false

/-- The state of the `LruCache` used by `isAddress`: entries from most to
least recently used. -/
abbrev IsAddressCache := List (JSString × Bool)

/-- Modelled from the spec: `LruCache.get` from `@std/cache`. Returns the
cached value and marks the entry most recently used. -/
def cacheGet (cache : IsAddressCache) (k : JSString) : Option Bool × IsAddressCache :=
  match cache.find? (fun e => e.1 == k) with
  | none => (none, cache)
  | some e => (some e.2, (k, e.2) :: cache.filter (fun e => !(e.1 == k)))

/-- Modelled from the spec: `LruCache.set` from `@std/cache`, with LRU
eviction beyond the capacity (8192 in the source). -/
def cacheSet (cache : IsAddressCache) (k : JSString) (v : Bool) : IsAddressCache :=
  ((k, v) :: cache.filter (fun e => !(e.1 == k))).take 8192

/-- `isAddress` from `chain-address.ts`: lowercases the input, consults the
cache, and falls back to the regex, memoizing the result. Returns the answer
together with the updated cache state. -/
def isAddress (cache : IsAddressCache) (address : JSString) : Bool × IsAddressCache :=
  let address := jsToLowerCase address
  match cacheGet cache address with
  | (some result, cache) => (result, cache)
  | (none, cache) =>
    let result := addressRegexTest address
    (result, cacheSet cache address result)

/-- Every cache entry records the regex verdict for its key. Holds for the
initial empty cache and is preserved by `isAddress`, so it holds for every
reachable cache state. -/
def CacheConsistent (cache : IsAddressCache) : Prop :=
  ∀ e ∈ cache, e.2 = addressRegexTest e.1

/-- The claim's characterization of a valid address: case-insensitively, the
prefix `0x` followed by exactly 40 hexadecimal digits. Stated from the spec's
words, to be compared with `isAddress`. -/
def isAddressSpec (s : JSString) : Bool :=
  match s with
  | c0 :: c1 :: rest =>
    c0 == 48 && (c1 == 120 || c1 == 88) && rest.length == 40 &&
      rest.all (fun c =>
        decide (97 ≤ c ∧ c ≤ 102) || decide (48 ≤ c ∧ c ≤ 57) ||
          decide (65 ≤ c ∧ c ≤ 70))
  | _ => false

/-! ### WHATWG URL model (`url.ts`, `defaults.ts`)

The `URL` class is a platform builtin, not repository code; it is modelled
here from its specified behavior for the fragment the library exercises:
absolute parsing with scheme/authority/path/query/fragment, and relative
resolution against a base. Percent-encoding, userinfo, ports, host
validation beyond emptiness, and dot-segment normalization are omitted; no
input in this development exercises them. -/

/-- A parsed URL: `scheme` is lowercased and has no trailing colon
(`protocol` in JavaScript is `scheme ++ ":"`); `host = none` means an opaque
path (no `//` authority); `search` is empty or starts with `?`; `hash` is
empty or starts with `#`. -/
structure URLRecord where
  scheme : JSString
  host : Option JSString
  pathname : JSString
  search : JSString
  hash : JSString
  deriving DecidableEq, Repr

/-- The WHATWG special schemes. -/
def specialSchemes : List JSString :=
  [jstr "http", jstr "https", jstr "ws", jstr "wss", jstr "ftp", jstr "file"]

/-- ASCII letter. -/
def isAsciiAlpha (c : Nat) : Bool :=
  decide (65 ≤ c ∧ c ≤ 90) || decide (97 ≤ c ∧ c ≤ 122)

/-- A character allowed after the first one in a URL scheme. -/
def isSchemeCode (c : Nat) : Bool :=
  isAsciiAlpha c || decide (48 ≤ c ∧ c ≤ 57) || c == 43 || c == 45 || c == 46

/-- Split a string at the first character satisfying `stop`; the second
component starts with that character (or is empty when none occurs). -/
def splitAtFirst (stop : Nat → Bool) : JSString → JSString × JSString
  | [] => ([], [])
  | c :: rest =>
    if stop c then ([], c :: rest)
    else
      let p := splitAtFirst stop rest
      (c :: p.1, p.2)

/-- Split a remainder (the part after the authority, or after the scheme
colon for opaque paths) into pathname, search and hash. -/
def splitPathSearchHash (r : JSString) : JSString × JSString × JSString :=
  let p := splitAtFirst (fun c => c == 35) r
  let q := splitAtFirst (fun c => c == 63) p.1
  (q.1, q.2, p.2)

/-- Modelled from the spec: `new URL(href)` on an absolute URL, returning
`none` where the constructor throws `TypeError`. Special schemes require a
non-empty host and always get a pathname starting with `/`; non-special
schemes may carry an opaque path. (Simplification: a special scheme without
`//` is rejected; the library never produces one.) -/
def jsURLParse (s : JSString) : Option URLRecord :=
  let p := splitAtFirst (fun c => c == 58 || c == 47 || c == 63 || c == 35) s
  match p.2 with
  | 58 :: afterColon =>
    match p.1 with
    | [] => none
    | c0 :: restScheme =>
      if isAsciiAlpha c0 && restScheme.all isSchemeCode then
        let scheme := jsToLowerCase (c0 :: restScheme)
        if afterColon.take 2 = jstr "//" then
          let q := splitAtFirst (fun c => c == 47 || c == 63 || c == 35) (afterColon.drop 2)
          if scheme ∈ specialSchemes ∧ q.1 = [] then none
          else
            let r := splitPathSearchHash q.2
            let pathname := if scheme ∈ specialSchemes ∧ r.1 = [] then jstr "/" else r.1
            some ⟨scheme, some q.1, pathname, r.2.1, r.2.2⟩
        else
          if scheme ∈ specialSchemes then none
          else
            let r := splitPathSearchHash afterColon
            some ⟨scheme, none, r.1, r.2.1, r.2.2⟩
      else none
  | _ => none

/-- Drop the last segment of a path (everything after the final `/`),
keeping the `/`. Used by relative-path resolution. -/
def dropLastSegment (p : JSString) : JSString :=
  (p.reverse.dropWhile (fun c => !(c == 47))).reverse

/-- Modelled from the spec: `new URL(input, base)` — the basic URL parser
with a base, returning `none` where the constructor throws. Covers: absolute
input, empty input, protocol-relative `//`, path-absolute `/`, query-only
`?`, fragment-only `#`, and relative-path input. -/
def jsURLResolve (input : JSString) (base : URLRecord) : Option URLRecord :=
  match jsURLParse input with
  | some u => some u
  | none =>
    match input with
    | [] => some { base with hash := [] }
    | 47 :: 47 :: rest =>
      let q := splitAtFirst (fun c => c == 47 || c == 63 || c == 35) rest
      if base.scheme ∈ specialSchemes ∧ q.1 = [] then none
      else
        let r := splitPathSearchHash q.2
        let pathname := if base.scheme ∈ specialSchemes ∧ r.1 = [] then jstr "/" else r.1
        some ⟨base.scheme, some q.1, pathname, r.2.1, r.2.2⟩
    | 47 :: _ =>
      let r := splitPathSearchHash input
      some ⟨base.scheme, base.host, r.1, r.2.1, r.2.2⟩
    | 63 :: _ =>
      let p := splitAtFirst (fun c => c == 35) input
      some ⟨base.scheme, base.host, base.pathname, p.1, p.2⟩
    | 35 :: _ => some { base with hash := input }
    | _ =>
      let r := splitPathSearchHash input
      some ⟨base.scheme, base.host, dropLastSegment base.pathname ++ r.1, r.2.1, r.2.2⟩

/-- `URL.prototype.href`: serialize a URL record. -/
def urlHref (u : URLRecord) : JSString :=
  u.scheme ++ jstr ":" ++
    (match u.host with
     | some h => jstr "//" ++ h
     | none => []) ++
    u.pathname ++ u.search ++ u.hash

/-- `URL.prototype.hostname`. -/
def urlHostname (u : URLRecord) : JSString := u.host.getD []

/-- The errors thrown by the library, one constructor per `throw` site (the
source throws plain `Error`s; the constructors carry what the message
interpolates). `typeError` stands for the `URL` constructor throwing. -/
inductive StoreError
  | typeError
  | unsupportedProtocol (protocol : JSString)
  | retrieval (statusText : JSString)
  | validation
  deriving DecidableEq, Repr

/-- `defaultIpfsProvider` from `defaults.ts` (note the trailing slash). -/
def defaultIpfsProvider : JSString := jstr "https://ipfs.io/"

/-- `buildIpfsHttpsUrl` from `url.ts`: the template literal
`` `${ipfsProvider}/ipfs/${cid}` ``. -/
def buildIpfsHttpsUrl (cid : JSString) (ipfsProvider : JSString) : JSString :=
  ipfsProvider ++ jstr "/ipfs/" ++ cid

/-- `buildIpnsHttpUrl` from `url.ts`. -/
def buildIpnsHttpUrl (cid : JSString) (ipfsProvider : JSString) : JSString :=
  ipfsProvider ++ jstr "/ipns/" ++ cid

/-- `toHttpsUrl` from `url.ts`: parse, then switch on `url.protocol`
(`"https:"`, `"ipfs:"`, `"ipns:"`, otherwise throw naming the protocol). -/
def toHttpsUrl (href : JSString) (ipfsProvider : JSString := defaultIpfsProvider) :
    Except StoreError URLRecord :=
  match jsURLParse href with
  | none => .error .typeError
  | some url =>
    if url.scheme = jstr "https" then .ok url
    else if url.scheme = jstr "ipfs" then
      match jsURLParse (buildIpfsHttpsUrl (urlHostname url) ipfsProvider) with
      | none => .error .typeError
      | some base =>
        match jsURLResolve (url.pathname ++ url.search ++ url.hash) base with
        | none => .error .typeError
        | some u => .ok u
    else if url.scheme = jstr "ipns" then
      match jsURLParse (buildIpnsHttpUrl (urlHostname url) ipfsProvider) with
      | none => .error .typeError
      | some base =>
        match jsURLResolve (url.pathname ++ url.search ++ url.hash) base with
        | none => .error .typeError
        | some u => .ok u
    else .error (.unsupportedProtocol (url.scheme ++ jstr ":"))

/-- `isHttpsUrl` from `url.ts`: `href.startsWith("https://")`. -/
def isHttpsUrl (href : JSString) : Bool :=
  List.isPrefixOf (jstr "https://") href

/-! ### Token-list schema validation (`token-list-validation.ts`)

The raw document models the JSON body after `response.json()`, projected
onto the schema's fields. Numeric fields are integers (JSON numbers that are
not integers are rejected by `v.safeInteger` and not modelled); the optional
`extensions` wrapper and its optional `bridgeInfo` are collapsed into one
optional field, since both absences behave identically downstream. -/

/-- ASCII digit. -/
def isDigitCode (c : Nat) : Bool := decide (48 ≤ c ∧ c ≤ 57)

/-- One character of the class `[a-fA-F0-9]`. -/
def isHexCodeAnyCase (c : Nat) : Bool :=
  isLowerHexCode c || decide (65 ≤ c ∧ c ≤ 70)

/-- Modelled from the spec: viem's `isAddress(s, { strict: false })`, i.e.
the test `/^0x[a-fA-F0-9]{40}$/` with no checksum verification. Used by
`addressSchema` in `token-list-validation.ts`. -/
def viemIsAddress (s : JSString) : Bool :=
  match s with
  | c0 :: c1 :: rest =>
    c0 == 48 && c1 == 120 && rest.length == 40 && rest.all isHexCodeAnyCase
  | _ => false

/-- Modelled from the spec: the JavaScript number denoted by a decimal
string with an optional sign, as accepted by valibot's `decimal` action and
converted by `Number` (integer forms only; fractional spellings of integers
are not claim-relevant). -/
def jsNumberOfDecimalString (s : JSString) : Option Int :=
  match s with
  | 43 :: rest =>
    if rest ≠ [] ∧ rest.all isDigitCode then some (decimalValue rest) else none
  | 45 :: rest =>
    if rest ≠ [] ∧ rest.all isDigitCode then some (-(decimalValue rest : Int)) else none
  | _ => if s ≠ [] ∧ s.all isDigitCode then some (decimalValue s) else none

/-- `Number.MAX_SAFE_INTEGER`, the bound enforced by `v.safeInteger`. -/
def maxSafeInteger : Int := 9007199254740991

/-- Timezone part of valibot's ISO timestamp pattern: `Z` or `±HH:MM`. -/
def isTimestampZone (s : JSString) : Bool :=
  s == jstr "Z" ||
    (match s with
     | c :: h1 :: h2 :: 58 :: m1 :: m2 :: [] =>
       (c == 43 || c == 45) && [h1, h2, m1, m2].all isDigitCode
     | _ => false)

/-- Optional fractional seconds followed by the timezone. -/
def isTimestampSuffix (s : JSString) : Bool :=
  match s with
  | 46 :: rest =>
    rest.takeWhile isDigitCode ≠ [] && isTimestampZone (rest.dropWhile isDigitCode)
  | _ => isTimestampZone s

/-- Modelled from the spec: valibot's `isoTimestamp` action,
`YYYY-MM-DDTHH:MM:SS` with optional fraction and a timezone. Digit-shape
check; the library regex's field-range boundaries are not claim-relevant. -/
def isIsoTimestamp (s : JSString) : Bool :=
  match s with
  | y1 :: y2 :: y3 :: y4 :: 45 :: m1 :: m2 :: 45 :: d1 :: d2 :: 84 ::
      h1 :: h2 :: 58 :: n1 :: n2 :: 58 :: s1 :: s2 :: rest =>
    [y1, y2, y3, y4, m1, m2, d1, d2, h1, h2, n1, n2, s1, s2].all isDigitCode &&
      isTimestampSuffix rest
  | _ => false

/-- A token entry of the raw document. -/
structure RawToken where
  chainId : Int
  address : JSString
  name : JSString
  symbol : JSString
  decimals : Int
  logoURI : Option JSString
  bridgeInfo : Option (List (JSString × JSString))
  deriving DecidableEq, Repr

/-- The raw `version` object. -/
structure RawVersion where
  major : Int
  minor : Int
  patch : Int
  deriving DecidableEq, Repr

/-- The raw token-list document. -/
structure RawTokenList where
  name : JSString
  timestamp : JSString
  version : RawVersion
  tokens : List RawToken
  deriving DecidableEq, Repr

/-- The validated `version` object (`parseResult.output.version`). -/
structure Version where
  major : Nat
  minor : Nat
  patch : Nat
  deriving DecidableEq, Repr

/-- A validated token entry (`parseResult.output.tokens[i]`). Bridge keys
are the chain IDs as numbers: valibot transforms the validated decimal key
strings with `Number`, object keys stringify canonically, and `tokens.ts`
re-parses them with `Number`, which round-trips for positive safe
integers. -/
structure TokenInfo where
  chainId : Nat
  address : JSString
  name : JSString
  symbol : JSString
  decimals : Nat
  logoURI : Option JSString
  bridgeInfo : Option (List (Nat × JSString))
  deriving DecidableEq, Repr

/-- The validated token-list document (`parseResult.output`). -/
structure TokenList where
  name : JSString
  timestamp : JSString
  version : Version
  tokens : List TokenInfo
  deriving DecidableEq, Repr

/-- The bridge-key schema: `v.pipe(v.string(), v.decimal(),
v.transform(Number), v.safeInteger(), v.minValue(1))` together with the
`tokenAddress` check of the record's value schema. -/
def validBridgeEntry (e : JSString × JSString) : Option (Nat × JSString) :=
  match jsNumberOfDecimalString e.1 with
  | none => none
  | some v =>
    if 1 ≤ v ∧ v ≤ maxSafeInteger ∧ viemIsAddress e.2 = true then
      some (v.toNat, e.2)
    else none

/-- The per-token constraints of `tokenInfoSchema` except `bridgeInfo`. -/
def validTokenBase (t : RawToken) : Bool :=
  decide (1 ≤ t.chainId) && decide (t.chainId ≤ maxSafeInteger) &&
    viemIsAddress t.address &&
    decide (t.name.length ≤ 60) && decide (t.symbol.length ≤ 20) &&
    decide (0 ≤ t.decimals) && decide (t.decimals ≤ 255) &&
    t.logoURI.all (fun u => (jsURLParse u).isSome)

/-- `tokenInfoSchema` as a parse function. -/
def validToken (t : RawToken) : Option TokenInfo :=
  if validTokenBase t then
    match t.bridgeInfo with
    | none =>
      some ⟨t.chainId.toNat, t.address, t.name, t.symbol, t.decimals.toNat, t.logoURI, none⟩
    | some entries =>
      (entries.mapM validBridgeEntry).map
        (fun es =>
          ⟨t.chainId.toNat, t.address, t.name, t.symbol, t.decimals.toNat, t.logoURI, some es⟩)
  else none

/-- `v.pipe(v.number(), v.minValue(0), v.safeInteger())` for version parts. -/
def validVersionNum (n : Int) : Bool :=
  decide (0 ≤ n) && decide (n ≤ maxSafeInteger)

/-- `safeParse(tokenListSchema, ·)`: `some output` on success, `none` on a
validation failure. -/
def validateTokenList (doc : RawTokenList) : Option TokenList :=
  if isIsoTimestamp doc.timestamp && validVersionNum doc.version.major &&
      validVersionNum doc.version.minor && validVersionNum doc.version.patch &&
      decide (1 ≤ doc.tokens.length) && decide (doc.tokens.length ≤ 10000) then
    (doc.tokens.mapM validToken).map
      (fun ts =>
        ⟨doc.name, doc.timestamp,
          ⟨doc.version.major.toNat, doc.version.minor.toNat, doc.version.patch.toNat⟩, ts⟩)
  else none

/-! ### The token metadata store (`tokens.ts`)

JavaScript `TokenMetadata` objects are mutable and shared: a bridged key may
alias the same object as the canonical key. Object identity is modelled as
an index (handle) into an arena `heap`, and the `Map` of the source holds
handles — mutation through one key is then visible through every key holding
the same handle, exactly as in the source. -/

/-- One element of `logoImages`. -/
structure LogoImage where
  src : JSString
  deriving DecidableEq, Repr

/-- `TokenMetadata` from `tokens.ts`. -/
structure TokenMetadata where
  logoImages : List LogoImage
  deriving DecidableEq, Repr

/-- `TokenListMetadata` from `tokens.ts`. -/
structure TokenListMetadata where
  name : JSString
  timestamp : JSString
  version : Version
  href : JSString
  deriving DecidableEq, Repr

/-- `Map.prototype.get`, for string-keyed JavaScript `Map`s modelled as
insertion-ordered association lists. -/
def mapGet {β : Type} (m : List (JSString × β)) (k : JSString) : Option β :=
  (m.find? (fun e => e.1 == k)).map (fun e => e.2)

/-- `Map.prototype.set`: replace in place when the key exists, append
otherwise. -/
def mapSet {β : Type} (m : List (JSString × β)) (k : JSString) (v : β) :
    List (JSString × β) :=
  if (m.find? (fun e => e.1 == k)).isSome then
    m.map (fun e => if e.1 == k then (k, v) else e)
  else m ++ [(k, v)]

/-- The state of a `TokenMetadataStore`: the two private `Map`s, plus the
arena of `TokenMetadata` objects referenced by handle. -/
structure TokenMetadataStore where
  tokenLists : List (JSString × TokenListMetadata)
  tokensByAddress : List (JSString × Nat)
  heap : List TokenMetadata
  deriving DecidableEq, Repr

/-- `new TokenMetadataStore()`. -/
def emptyStore : TokenMetadataStore := ⟨[], [], []⟩

/-- Every handle stored in the address map points into the arena. Every
store reachable from `emptyStore` satisfies this. -/
def StoreWF (store : TokenMetadataStore) : Prop :=
  ∀ e ∈ store.tokensByAddress, e.2 < store.heap.length

/-- The `for (const src of newSources)` loop of `addTokenLogoImageSources`:
push every source whose `src` is absent from the logo list as it stood at
the start of the call (the loop tests `tokenMetadata.logoImages`, not the
list being built). -/
def mergeLogoImages (existing : List LogoImage) (newSources : List JSString) :
    List LogoImage :=
  existing ++
    (newSources.filter (fun src => existing.all (fun image => !(image.src == src)))).map
      (fun src => ⟨src⟩)

/-- `addTokenLogoImageSources` from `tokens.ts`: derive the key, look up or
create the entry, then append the new sources per `mergeLogoImages`. Returns
the updated store and the handle of the returned `TokenMetadata` object. -/
def addTokenLogoImageSources (store : TokenMetadataStore) (chainAddress : ChainAddress)
    (newSources : List JSString) : TokenMetadataStore × Nat :=
  let key := getChainAddressKey chainAddress
  let p : Nat × TokenMetadataStore :=
    match mapGet store.tokensByAddress key with
    | some h => (h, store)
    | none =>
      (store.heap.length,
        { store with
          tokensByAddress := mapSet store.tokensByAddress key store.heap.length,
          heap := store.heap ++ [⟨[]⟩] })
  let h := p.1
  let store := p.2
  let tokenMetadata := store.heap.getD h ⟨[]⟩
  ({ store with heap := store.heap.set h ⟨mergeLogoImages tokenMetadata.logoImages newSources⟩ },
    h)

/-- `getTokenFromAddress` from `tokens.ts`: pure lookup by derived key; the
returned object reference is resolved through the arena. -/
def getTokenFromAddress (store : TokenMetadataStore) (chainAddress : ChainAddress) :
    Option TokenMetadata :=
  (mapGet store.tokensByAddress (getChainAddressKey chainAddress)).bind
    (fun h => store.heap[h]?)

/-- The body of the `bridgeInfo` loop in `fetchTokensFromList`: alias the
bridged key to the canonical token's object only when the key is new, then
unconditionally add the logo source for the bridged chain-address. -/
def processBridgeEntry (logoURI : JSString) (tokenMetadataHandle : Nat)
    (store : TokenMetadataStore) (entry : Nat × JSString) : TokenMetadataStore :=
  let key := getChainAddressKey ⟨entry.1, entry.2⟩
  let store :=
    if (mapGet store.tokensByAddress key).isSome then store
    else { store with tokensByAddress := mapSet store.tokensByAddress key tokenMetadataHandle }
  (addTokenLogoImageSources store ⟨entry.1, entry.2⟩ [logoURI]).1

/-- The body of the token loop in `fetchTokensFromList`. The source guard is
`token.logoURI && isHttpsUrl(token.logoURI)`; the truthiness test on the
string coincides with `isHttpsUrl` rejecting the empty string. -/
def processToken (store : TokenMetadataStore) (token : TokenInfo) : TokenMetadataStore :=
  match token.logoURI with
  | none => store
  | some logoURI =>
    if isHttpsUrl logoURI then
      let p := addTokenLogoImageSources store ⟨token.chainId, token.address⟩ [logoURI]
      match token.bridgeInfo with
      | none => p.1
      | some entries => entries.foldl (processBridgeEntry logoURI p.2) p.1
    else store

/-- The final step of `fetchTokensFromList`: record the list's metadata
under its href. -/
def recordTokenList (store : TokenMetadataStore) (href : JSString) (output : TokenList) :
    TokenMetadataStore :=
  { store with
    tokenLists := mapSet store.tokenLists href ⟨output.name, output.timestamp, output.version, href⟩ }

/-- The fetch capability's result: `ok`/`statusText` from the `Response`,
and the JSON body already parsed into the raw document shape. -/
structure FetchResponse where
  ok : Bool
  statusText : JSString
  body : RawTokenList
  deriving DecidableEq, Repr

/-- `fetchTokensFromList` from `tokens.ts`: reject a non-ok response, run
schema validation, process every validated token, and only then record the
list's metadata. Returns the outcome together with the store state. -/
def fetchTokensFromList (store : TokenMetadataStore) (tokenListUrl : URLRecord)
    (response : FetchResponse) : Except StoreError Unit × TokenMetadataStore :=
  if !response.ok then (.error (.retrieval response.statusText), store)
  else
    match validateTokenList response.body with
    | none => (.error .validation, store)
    | some output =>
      let store := output.tokens.foldl processToken store
      (.ok (), recordTokenList store (urlHref tokenListUrl) output)

/-- The `tokenLists` getter: the values of the href map in insertion
order. -/
def tokenListsGetter (store : TokenMetadataStore) : List TokenListMetadata :=
  store.tokenLists.map (fun e => e.2)

/-- `getTokenListMetadata` from `tokens.ts` (the string overload re-parses
through `new URL`, yielding the same href). -/
def getTokenListMetadata (store : TokenMetadataStore) (tokenListUrl : URLRecord) :
    Option TokenListMetadata :=
  mapGet store.tokenLists (urlHref tokenListUrl)

/-- The DAI mainnet address from the spec's end-to-end example. -/
def daiAddress : JSString := jstr "0x6B175474E89094C44Da98b954EedeAC495271d0F"

/-- The bridged (Base, chain 8453) DAI address from the spec's example. -/
def daiBaseAddress : JSString := jstr "0x50c5725949A6F0c72E6C4a641F24049A917DB0Cb"

/-- The example logo URI. -/
def daiLogoURI : JSString := jstr "https://example/dai.png"

/-- The example token-list URL. -/
def exampleListUrl : URLRecord :=
  ⟨jstr "https", some (jstr "example.com"), jstr "/list.json", [], []⟩

/-- The raw one-token document of the spec's end-to-end example. -/
def exampleRawList : RawTokenList :=
  ⟨jstr "Test List", jstr "2024-12-12T18:01:30.180Z", ⟨1, 0, 0⟩,
    [⟨1, daiAddress, jstr "Dai", jstr "DAI", 18, some daiLogoURI,
      some [(jstr "8453", daiBaseAddress)]⟩]⟩

/-- The validated output of `exampleRawList`. -/
def exampleTokenList : TokenList :=
  ⟨jstr "Test List", jstr "2024-12-12T18:01:30.180Z", ⟨1, 0, 0⟩,
    [⟨1, daiAddress, jstr "Dai", jstr "DAI", 18, some daiLogoURI,
      some [(8453, daiBaseAddress)]⟩]⟩

/-! ### General lemmas -/

theorem decimalValue_append (s t : JSString) :
    decimalValue (s ++ t) = t.foldl (fun acc c => 10 * acc + (c - 48)) (decimalValue s) := by
  simp [decimalValue, List.foldl_append]

theorem decimalValue_natToDecimalCharsAux (fuel : Nat) :
    ∀ n, n < fuel → decimalValue (natToDecimalCharsAux fuel n) = n := by
  induction fuel with
  | zero => intro n hn; omega
  | succ fuel ih =>
    intro n hn
    rw [natToDecimalCharsAux]
    split
    · simp [decimalValue]
    · rename_i h
      have hdiv : n / 10 < fuel := by
        have : n / 10 < n := Nat.div_lt_self (by omega) (by norm_num)
        omega
      rw [decimalValue_append, ih (n / 10) hdiv]
      simp [List.foldl]
      omega

theorem decimalValue_natToDecimalChars (n : Nat) :
    decimalValue (natToDecimalChars n) = n :=
  decimalValue_natToDecimalCharsAux (n + 1) n (Nat.lt_succ_self n)

theorem natToDecimalChars_injective {a b : Nat}
    (h : natToDecimalChars a = natToDecimalChars b) : a = b := by
  have := decimalValue_natToDecimalChars a
  rw [h, decimalValue_natToDecimalChars] at this
  omega

theorem addressRegexTest_toLower_eq_spec (s : JSString) :
    addressRegexTest (jsToLowerCase s) = isAddressSpec s := by
  have h0 : ∀ c : Nat, (jsCodeToLower c == 48) = (c == 48) := by
    intro c
    rw [Bool.eq_iff_iff]
    simp only [beq_iff_eq, jsCodeToLower]
    split <;> omega
  have h1 : ∀ c : Nat, (jsCodeToLower c == 120) = (c == 120 || c == 88) := by
    intro c
    rw [Bool.eq_iff_iff]
    simp only [beq_iff_eq, Bool.or_eq_true, jsCodeToLower]
    split <;> omega
  have h2 : ∀ c : Nat, isLowerHexCode (jsCodeToLower c) =
      (decide (97 ≤ c ∧ c ≤ 102) || decide (48 ≤ c ∧ c ≤ 57) ||
        decide (65 ≤ c ∧ c ≤ 70)) := by
    intro c
    rw [Bool.eq_iff_iff]
    simp only [isLowerHexCode, Bool.or_eq_true, decide_eq_true_eq, jsCodeToLower]
    split <;> omega
  match s with
  | [] => rfl
  | [c] => rfl
  | c0 :: c1 :: rest =>
    simp only [jsToLowerCase, List.map_cons, addressRegexTest, isAddressSpec,
      List.length_map, List.all_map, Function.comp_def, h0, h1, h2]

theorem listSet_of_getElem {α : Type} {l : List α} {i : Nat} {v : α}
    (h : l[i]? = some v) : l.set i v = l := by
  have hi : i < l.length := by
    by_contra hc
    push_neg at hc
    rw [List.getElem?_eq_none hc] at h
    exact Option.noConfusion h
  apply List.ext_getElem?
  intro n
  by_cases hn : n = i
  · subst hn
    rw [List.getElem?_set_self hi, h]
  · rw [List.getElem?_set_ne (fun he => hn he.symm)]

theorem mapGet_mapSet_self {β : Type} (m : List (JSString × β)) (k : JSString) (v : β) :
    mapGet (mapSet m k v) k = some v := by
  unfold mapGet mapSet
  by_cases hf : (m.find? (fun e => e.1 == k)).isSome
  · simp only [hf, if_true, List.find?_map]
    obtain ⟨e, he⟩ := Option.isSome_iff_exists.mp hf
    have hek : e.1 = k := by simpa using List.find?_some he
    have hcomp : (fun a : JSString × β => a.1 == k) ∘
        (fun e : JSString × β => if e.1 == k then (k, v) else e) =
        (fun e : JSString × β => e.1 == k) := by
      funext a
      by_cases ha : a.1 = k <;> simp [ha]
    rw [hcomp, he]
    simp [hek]
  · rw [Option.not_isSome_iff_eq_none] at hf
    simp only [hf, Option.isSome_none, Bool.false_eq_true, if_false, List.find?_append, hf,
      Option.none_or]
    simp

theorem mapGet_mapSet_ne {β : Type} (m : List (JSString × β)) (k k' : JSString) (v : β)
    (hne : k' ≠ k) : mapGet (mapSet m k v) k' = mapGet m k' := by
  unfold mapGet mapSet
  by_cases hf : (m.find? (fun e => e.1 == k)).isSome
  · simp only [hf, if_true, List.find?_map]
    have hcomp : (fun a : JSString × β => a.1 == k') ∘
        (fun e : JSString × β => if e.1 == k then (k, v) else e) =
        (fun e : JSString × β => e.1 == k') := by
      funext a
      by_cases ha : a.1 = k <;> simp [ha]
    rw [hcomp]
    match hm : m.find? (fun e => e.1 == k') with
    | none => rw [hm]; rfl
    | some e =>
      rw [hm]
      have he : e.1 = k' := by simpa using List.find?_some hm
      have hek : ¬(e.1 = k) := by rw [he]; exact hne
      simp [hek]
  · simp only [hf, Bool.false_eq_true, if_false, List.find?_append]
    have : List.find? (fun e => e.1 == k') [(k, v)] = none := by
      simp [Ne.symm hne]
    rw [this]
    simp

/-! ### Lemmas about `mergeLogoImages` and `addTokenLogoImageSources` -/

theorem mem_mergeLogoImages (existing : List LogoImage) (srcs : List JSString)
    (src : JSString) (h : src ∈ srcs) :
    (⟨src⟩ : LogoImage) ∈ mergeLogoImages existing srcs := by
  unfold mergeLogoImages
  by_cases hall : existing.all (fun image => !(image.src == src)) = true
  · refine List.mem_append_right _ ?_
    exact List.mem_map_of_mem _ (List.mem_filter.mpr ⟨h, hall⟩)
  · refine List.mem_append_left _ ?_
    simp only [List.all_eq_true, Bool.not_eq_true', beq_eq_false_iff_ne, ne_eq,
      not_forall] at hall
    obtain ⟨img, hmem, hsrc⟩ := hall
    have : img = ⟨src⟩ := by
      cases img
      simp only [not_not] at hsrc
      simpa using hsrc
    rwa [this] at hmem

theorem mergeLogoImages_sub (existing : List LogoImage) (srcs : List JSString)
    (h : ∀ src ∈ srcs, (⟨src⟩ : LogoImage) ∈ existing) :
    mergeLogoImages existing srcs = existing := by
  unfold mergeLogoImages
  have : srcs.filter (fun src => existing.all (fun image => !(image.src == src))) = [] := by
    rw [List.filter_eq_nil_iff]
    intro src hsrc
    simp only [List.all_eq_true, Bool.not_eq_true', beq_eq_false_iff_ne, ne_eq, not_forall,
      not_not]
    exact ⟨⟨src⟩, h src hsrc, rfl⟩
  rw [this]
  simp

theorem mergeLogoImages_idem (existing : List LogoImage) (srcs : List JSString) :
    mergeLogoImages (mergeLogoImages existing srcs) srcs = mergeLogoImages existing srcs :=
  mergeLogoImages_sub _ _ (fun src h => mem_mergeLogoImages existing srcs src h)

theorem mergeLogoImages_nodup (existing : List LogoImage) (srcs : List JSString)
    (hex : (existing.map (fun i => i.src)).Nodup) (hsrcs : srcs.Nodup) :
    ((mergeLogoImages existing srcs).map (fun i => i.src)).Nodup := by
  unfold mergeLogoImages
  rw [List.map_append, List.map_map]
  have hmm : ((srcs.filter
      (fun src => existing.all (fun image => !(image.src == src)))).map
        ((fun i : LogoImage => i.src) ∘ (fun src => (⟨src⟩ : LogoImage)))) =
      srcs.filter (fun src => existing.all (fun image => !(image.src == src))) := by
    simp [Function.comp_def]
  rw [hmm]
  refine List.Nodup.append hex (hsrcs.filter _) ?_
  intro a ha hb
  rw [List.mem_filter] at hb
  have := hb.2
  simp only [List.all_eq_true, Bool.not_eq_true', beq_eq_false_iff_ne, ne_eq] at this
  rw [List.mem_map] at ha
  obtain ⟨img, hmem, hsrc⟩ := ha
  exact this img hmem hsrc

theorem addTokenLogoImageSources_found (store : TokenMetadataStore) (ca : ChainAddress)
    (srcs : List JSString) (hdl : Nat)
    (h : mapGet store.tokensByAddress (getChainAddressKey ca) = some hdl) :
    addTokenLogoImageSources store ca srcs =
      ({ store with
          heap := store.heap.set hdl
            ⟨mergeLogoImages (store.heap.getD hdl ⟨[]⟩).logoImages srcs⟩ }, hdl) := by
  unfold addTokenLogoImageSources
  dsimp only
  rw [h]

theorem addTokenLogoImageSources_notFound (store : TokenMetadataStore) (ca : ChainAddress)
    (srcs : List JSString)
    (h : mapGet store.tokensByAddress (getChainAddressKey ca) = none) :
    addTokenLogoImageSources store ca srcs =
      ({ store with
          tokensByAddress :=
            mapSet store.tokensByAddress (getChainAddressKey ca) store.heap.length,
          heap := store.heap ++ [⟨mergeLogoImages [] srcs⟩] }, store.heap.length) := by
  unfold addTokenLogoImageSources
  dsimp only
  rw [h]
  dsimp only
  congr 1
  · congr 1
    have hget : (store.heap ++ [(⟨[]⟩ : TokenMetadata)]).getD store.heap.length ⟨[]⟩ =
        (⟨[]⟩ : TokenMetadata) := by
      rw [List.getD_eq_getElem?_getD, List.getElem?_concat_length]
      rfl
    rw [hget]
    have hlen : store.heap.length < (store.heap ++ [(⟨[]⟩ : TokenMetadata)]).length := by
      simp
    apply List.ext_getElem?
    intro n
    by_cases hn : n = store.heap.length
    · subst hn
      rw [List.getElem?_set_self hlen, List.getElem?_concat_length]
    · rw [List.getElem?_set_ne (fun he => hn he.symm)]
      by_cases hlt : n < store.heap.length
      · simp only [List.getElem?_append, if_pos hlt]
      · have h1 : store.heap.length ≤ n := Nat.le_of_not_lt hlt
        rw [List.getElem?_append_right h1, List.getElem?_append_right h1]
        have : n - store.heap.length ≠ 0 := by omega
        match hm : n - store.heap.length with
        | 0 => exact absurd hm this
        | m + 1 => simp

theorem getD_set_self_of_lt {α : Type} {l : List α} {i : Nat} (v d : α)
    (h : i < l.length) : (l.set i v).getD i d = v := by
  rw [List.getD_eq_getElem?_getD, List.getElem?_set_self h]
  rfl

theorem mapGet_some_mem {β : Type} {m : List (JSString × β)} {k : JSString} {v : β}
    (h : mapGet m k = some v) : (k, v) ∈ m := by
  unfold mapGet at h
  match hm : m.find? (fun e => e.1 == k) with
  | none => rw [hm] at h; exact Option.noConfusion h
  | some e =>
    rw [hm] at h
    have he1 : e.1 = k := by simpa using List.find?_some hm
    have he2 : e.2 = v := by simpa using h
    have : e = (k, v) := by
      cases e
      simp_all
    rw [← this]
    exact List.mem_of_find?_eq_some hm

theorem mem_mapSet {β : Type} {m : List (JSString × β)} {k : JSString} {v : β} {e : JSString × β}
    (h : e ∈ mapSet m k v) : e = (k, v) ∨ e ∈ m := by
  unfold mapSet at h
  by_cases hf : (m.find? (fun x => x.1 == k)).isSome
  · rw [if_pos hf] at h
    rw [List.mem_map] at h
    obtain ⟨a, ham, hae⟩ := h
    by_cases ha : a.1 = k
    · left
      rw [← hae]
      simp [ha]
    · right
      rw [← hae]
      simpa [ha] using ham
  · rw [if_neg hf] at h
    rcases List.mem_append.mp h with hm | hm
    · exact Or.inr hm
    · left
      simpa using hm

theorem addTokenLogoImageSources_idem (store : TokenMetadataStore) (ca : ChainAddress)
    (srcs : List JSString) :
    addTokenLogoImageSources (addTokenLogoImageSources store ca srcs).1 ca srcs =
      addTokenLogoImageSources store ca srcs := by
  match hm : mapGet store.tokensByAddress (getChainAddressKey ca) with
  | some hdl =>
    rw [addTokenLogoImageSources_found store ca srcs hdl hm]
    dsimp only
    have hm' : mapGet
        (TokenMetadataStore.mk store.tokenLists store.tokensByAddress
          (store.heap.set hdl
            ⟨mergeLogoImages (store.heap.getD hdl ⟨[]⟩).logoImages srcs⟩)).tokensByAddress
        (getChainAddressKey ca) = some hdl := hm
    rw [addTokenLogoImageSources_found _ ca srcs hdl hm']
    by_cases hlt : hdl < store.heap.length
    · dsimp only
      have hgetD : (store.heap.set hdl
          ⟨mergeLogoImages (store.heap.getD hdl ⟨[]⟩).logoImages srcs⟩).getD hdl ⟨[]⟩ =
          ⟨mergeLogoImages (store.heap.getD hdl ⟨[]⟩).logoImages srcs⟩ :=
        getD_set_self_of_lt _ _ hlt
      rw [hgetD]
      simp only [mergeLogoImages_idem, List.set_set]
    · have hle : store.heap.length ≤ hdl := Nat.le_of_not_lt hlt
      have hset : ∀ v : TokenMetadata, store.heap.set hdl v = store.heap :=
        fun v => List.set_eq_of_length_le hle
      dsimp only
      simp only [hset]
  | none =>
    rw [addTokenLogoImageSources_notFound store ca srcs hm]
    dsimp only
    have hm2 : mapGet
        (TokenMetadataStore.mk store.tokenLists
          (mapSet store.tokensByAddress (getChainAddressKey ca) store.heap.length)
          (store.heap ++ [⟨mergeLogoImages [] srcs⟩])).tokensByAddress
        (getChainAddressKey ca) = some store.heap.length :=
      mapGet_mapSet_self _ _ _
    rw [addTokenLogoImageSources_found _ ca srcs store.heap.length hm2]
    dsimp only
    have hgetD : (store.heap ++ [(⟨mergeLogoImages [] srcs⟩ : TokenMetadata)]).getD
        store.heap.length ⟨[]⟩ = ⟨mergeLogoImages [] srcs⟩ := by
      rw [List.getD_eq_getElem?_getD, List.getElem?_concat_length]
      rfl
    rw [hgetD]
    simp only [mergeLogoImages_idem]
    congr 1
    exact congrArg (TokenMetadataStore.mk store.tokenLists
      (mapSet store.tokensByAddress (getChainAddressKey ca) store.heap.length))
      (listSet_of_getElem (List.getElem?_concat_length _ _))

theorem addTokenLogoImageSources_wf {store : TokenMetadataStore} (ca : ChainAddress)
    (srcs : List JSString) (hwf : StoreWF store) :
    StoreWF (addTokenLogoImageSources store ca srcs).1 := by
  match hm : mapGet store.tokensByAddress (getChainAddressKey ca) with
  | some hdl =>
    rw [addTokenLogoImageSources_found store ca srcs hdl hm]
    intro e he
    simpa using hwf e he
  | none =>
    rw [addTokenLogoImageSources_notFound store ca srcs hm]
    intro e he
    simp only [List.length_append, List.length_singleton]
    rcases mem_mapSet he with he | he
    · rw [he]
      simp
    · have := hwf e he
      omega

theorem getElem?_isSome_of_mapGet {store : TokenMetadataStore} {k : JSString} {hdl : Nat}
    (hwf : StoreWF store) (hm : mapGet store.tokensByAddress k = some hdl) :
    ∃ md, store.heap[hdl]? = some md := by
  have hlt : hdl < store.heap.length := hwf _ (mapGet_some_mem hm)
  exact ⟨store.heap[hdl], List.getElem?_eq_getElem hlt⟩

theorem getTokenFromAddress_eq_some {store : TokenMetadataStore} {ca : ChainAddress}
    {md : TokenMetadata} (h : getTokenFromAddress store ca = some md) :
    ∃ hdl, mapGet store.tokensByAddress (getChainAddressKey ca) = some hdl ∧
      store.heap[hdl]? = some md := by
  unfold getTokenFromAddress at h
  match hm : mapGet store.tokensByAddress (getChainAddressKey ca) with
  | none => rw [hm] at h; exact Option.noConfusion h
  | some hdl =>
    rw [hm] at h
    exact ⟨hdl, rfl, h⟩

theorem mapGet_eq_none_of_getTokenFromAddress {store : TokenMetadataStore} {ca : ChainAddress}
    (hwf : StoreWF store) (h : getTokenFromAddress store ca = none) :
    mapGet store.tokensByAddress (getChainAddressKey ca) = none := by
  match hm : mapGet store.tokensByAddress (getChainAddressKey ca) with
  | none => rfl
  | some hdl =>
    obtain ⟨md, hmd⟩ := getElem?_isSome_of_mapGet hwf hm
    unfold getTokenFromAddress at h
    rw [hm] at h
    simp only [Option.some_bind] at h
    rw [hmd] at h
    exact Option.noConfusion h

theorem getTokenFromAddress_add_found {store : TokenMetadataStore} {ca : ChainAddress}
    {hdl : Nat} {md : TokenMetadata} (srcs : List JSString)
    (hm : mapGet store.tokensByAddress (getChainAddressKey ca) = some hdl)
    (hh : store.heap[hdl]? = some md) :
    getTokenFromAddress (addTokenLogoImageSources store ca srcs).1 ca =
      some ⟨mergeLogoImages md.logoImages srcs⟩ := by
  have hlt : hdl < store.heap.length := by
    by_contra hc
    push_neg at hc
    rw [List.getElem?_eq_none hc] at hh
    exact Option.noConfusion hh
  rw [addTokenLogoImageSources_found store ca srcs hdl hm]
  unfold getTokenFromAddress
  dsimp only
  rw [hm]
  simp only [Option.some_bind]
  have hgetD : store.heap.getD hdl ⟨[]⟩ = md := by
    rw [List.getD_eq_getElem?_getD, hh]
    rfl
  rw [hgetD, List.getElem?_set_self hlt]

theorem getTokenFromAddress_add_notFound {store : TokenMetadataStore} {ca : ChainAddress}
    (srcs : List JSString)
    (hm : mapGet store.tokensByAddress (getChainAddressKey ca) = none) :
    getTokenFromAddress (addTokenLogoImageSources store ca srcs).1 ca =
      some ⟨mergeLogoImages [] srcs⟩ := by
  rw [addTokenLogoImageSources_notFound store ca srcs hm]
  unfold getTokenFromAddress
  dsimp only
  rw [mapGet_mapSet_self]
  simp only [Option.some_bind]
  rw [List.getElem?_concat_length]

theorem addTokenLogoImageSources_found_parts {store : TokenMetadataStore} {ca : ChainAddress}
    {hdl : Nat} {md : TokenMetadata} (srcs : List JSString)
    (hm : mapGet store.tokensByAddress (getChainAddressKey ca) = some hdl)
    (hh : store.heap[hdl]? = some md) :
    (addTokenLogoImageSources store ca srcs).1.tokensByAddress = store.tokensByAddress ∧
    (addTokenLogoImageSources store ca srcs).1.tokenLists = store.tokenLists ∧
    (addTokenLogoImageSources store ca srcs).1.heap[hdl]? =
      some ⟨mergeLogoImages md.logoImages srcs⟩ := by
  have hlt : hdl < store.heap.length := by
    by_contra hc
    push_neg at hc
    rw [List.getElem?_eq_none hc] at hh
    exact Option.noConfusion hh
  have hgetD : store.heap.getD hdl ⟨[]⟩ = md := by
    rw [List.getD_eq_getElem?_getD, hh]
    rfl
  rw [addTokenLogoImageSources_found store ca srcs hdl hm]
  refine ⟨rfl, rfl, ?_⟩
  dsimp only
  rw [hgetD, List.getElem?_set_self hlt]

theorem viemIsAddress_shape {a : JSString} (ha : viemIsAddress a = true) :
    ∃ rest, a = 48 :: 120 :: rest ∧ rest.length = 40 := by
  match a with
  | [] => exact absurd ha (by decide)
  | [c] => exact absurd ha (by simp [viemIsAddress])
  | c0 :: c1 :: rest =>
    simp only [viemIsAddress, Bool.and_eq_true, beq_iff_eq] at ha
    exact ⟨rest, by rw [ha.1.1.1, ha.1.1.2], ha.1.2⟩

/-! ### Claims -/

/-- Claim C1, counterexample: `getChainAddressKey` is not case-insensitive
and does not lowercase. For chain ID 1 and the DAI address written with
upper-case hex letters, the key differs from the key of the lowercased
address, and is not `1_` followed by the lowercased digits — it keeps the
casing as given. -/
theorem getChainAddressKey_not_case_insensitive :
    getChainAddressKey ⟨1, jstr "0xAB175474E89094C44DA98B954EEDEAC495271D0F"⟩ ≠
      getChainAddressKey ⟨1, jstr "0xab175474e89094c44da98b954eedeac495271d0f"⟩ ∧
    getChainAddressKey ⟨1, jstr "0xAB175474E89094C44DA98B954EEDEAC495271D0F"⟩ ≠
      jstr "1_ab175474e89094c44da98b954eedeac495271d0f" ∧
    getChainAddressKey ⟨1, jstr "0xAB175474E89094C44DA98B954EEDEAC495271D0F"⟩ =
      jstr "1_AB175474E89094C44DA98B954EEDEAC495271D0F" := by
  refine ⟨?_, ?_, ?_⟩ <;> decide

/-- Claim C1, amended: for every positive chain ID and syntactically valid
`0x`-prefixed 40-hex-digit addresses, `getChainAddressKey` produces
`<chainId>_` followed by the 40 hex digits exactly as written (case
preserved, no lowercasing), and two chain addresses map to the same key if
and only if their chain IDs are equal and their addresses are equal by
case-sensitive comparison. -/
theorem getChainAddressKey_case_sensitive_inj (c c' : Nat) (a a' : JSString)
    (ha : viemIsAddress a = true) (ha' : viemIsAddress a' = true) :
    (getChainAddressKey ⟨c, a⟩ = getChainAddressKey ⟨c', a'⟩ ↔ (c = c' ∧ a = a')) ∧
    getChainAddressKey ⟨c, a⟩ = natToDecimalChars c ++ jstr "_" ++ a.drop 2 := by
  refine ⟨⟨?_, ?_⟩, rfl⟩
  · intro h
    obtain ⟨rest, haeq, hlen⟩ := viemIsAddress_shape ha
    obtain ⟨rest', haeq', hlen'⟩ := viemIsAddress_shape ha'
    subst haeq
    subst haeq'
    unfold getChainAddressKey at h
    dsimp only at h
    have hdrop : (48 :: 120 :: rest : JSString).drop 2 = rest := rfl
    have hdrop' : (48 :: 120 :: rest' : JSString).drop 2 = rest' := rfl
    rw [hdrop, hdrop'] at h
    rw [List.append_assoc, List.append_assoc] at h
    have hlens : (natToDecimalChars c).length = (natToDecimalChars c').length := by
      have := congrArg List.length h
      simp only [List.length_append] at this
      have hj : (jstr "_").length = 1 := rfl
      omega
    obtain ⟨h1, h2⟩ := List.append_inj h hlens
    have hc : c = c' := natToDecimalChars_injective h1
    have hr : rest = rest' := by
      have hj : jstr "_" = [95] := rfl
      rw [hj] at h2
      simpa using h2
    exact ⟨hc, by rw [hr]⟩
  · rintro ⟨rfl, rfl⟩
    rfl

/-- Claim C1 amended, witness at a concrete input. -/
theorem getChainAddressKey_case_sensitive_inj_witness :
    getChainAddressKey ⟨1, jstr "0x6B175474E89094C44Da98b954EedeAC495271d0F"⟩ =
        getChainAddressKey ⟨1, jstr "0x6B175474E89094C44Da98b954EedeAC495271d0F"⟩ ↔
      (1 = 1 ∧ jstr "0x6B175474E89094C44Da98b954EedeAC495271d0F" =
        jstr "0x6B175474E89094C44Da98b954EedeAC495271d0F") :=
  (getChainAddressKey_case_sensitive_inj 1 1
    (jstr "0x6B175474E89094C44Da98b954EedeAC495271d0F")
    (jstr "0x6B175474E89094C44Da98b954EedeAC495271d0F")
    (by decide) (by decide)).1

/-- Claim C8: `isAddress` is a correct, cache-transparent syntactic
predicate. On every cache state reachable from the empty one (characterized
by `CacheConsistent`, which the empty cache satisfies and every call
preserves), `isAddress` returns true exactly when the input is,
case-insensitively, `0x` followed by 40 hexadecimal digits — the LRU
memoization never alters the answer. -/
theorem isAddress_correct_cache_transparent (cache : IsAddressCache) (s : JSString)
    (hc : CacheConsistent cache) :
    (isAddress cache s).1 = isAddressSpec s ∧
      CacheConsistent (isAddress cache s).2 := by
  unfold isAddress cacheGet
  dsimp only
  match hf : cache.find? (fun e => e.1 == jsToLowerCase s) with
  | none =>
    rw [hf]
    dsimp only
    refine ⟨addressRegexTest_toLower_eq_spec s, ?_⟩
    intro e he
    unfold cacheSet at he
    have he' := List.take_subset _ _ he
    rcases List.mem_cons.mp he' with he'' | he''
    · rw [he'']
    · exact hc e (List.mem_of_mem_filter he'')
  | some e =>
    rw [hf]
    dsimp only
    have hmem : e ∈ cache := List.mem_of_find?_eq_some hf
    have hkey : e.1 = jsToLowerCase s := by simpa using List.find?_some hf
    refine ⟨?_, ?_⟩
    · rw [hc e hmem, hkey, addressRegexTest_toLower_eq_spec]
    · intro x hx
      rcases List.mem_cons.mp hx with hx' | hx'
      · rw [hx']
        dsimp only
        rw [hc e hmem, hkey]
      · exact hc x (List.mem_of_mem_filter hx')

/-- Claim C8, witness: the empty cache is consistent, and on it `isAddress`
agrees with the specification for a mixed-case valid address. -/
theorem isAddress_correct_cache_transparent_witness :
    (isAddress [] (jstr "0xAB175474E89094C44Da98b954EedeAC495271d0F")).1 =
        isAddressSpec (jstr "0xAB175474E89094C44Da98b954EedeAC495271d0F") ∧
      CacheConsistent
        (isAddress [] (jstr "0xAB175474E89094C44Da98b954EedeAC495271d0F")).2 :=
  isAddress_correct_cache_transparent [] _
    (fun e he => absurd he (List.not_mem_nil e))

/-- Claim C9: `toHttpsUrl` returns the parsed URL unchanged for `https`
inputs, and for every parseable URL whose scheme is not `https`, `ipfs` or
`ipns` it fails with the unsupported-protocol error naming the offending
scheme (`url.protocol`, i.e. the scheme followed by `:`), returning no
URL. -/
theorem toHttpsUrl_scheme_handling (href p : JSString) (u : URLRecord)
    (hp : jsURLParse href = some u) :
    (u.scheme = jstr "https" → toHttpsUrl href p = .ok u) ∧
    (u.scheme ≠ jstr "https" → u.scheme ≠ jstr "ipfs" → u.scheme ≠ jstr "ipns" →
      toHttpsUrl href p = .error (.unsupportedProtocol (u.scheme ++ jstr ":"))) := by
  constructor
  · intro h
    unfold toHttpsUrl
    rw [hp]
    dsimp only
    rw [if_pos h]
  · intro h1 h2 h3
    unfold toHttpsUrl
    rw [hp]
    dsimp only
    rw [if_neg h1, if_neg h2, if_neg h3]

/-- Claim C9, witness: an `ftp://` URL is rejected with the error naming
`ftp:`. -/
theorem toHttpsUrl_scheme_handling_witness :
    toHttpsUrl (jstr "ftp://example.com/x") defaultIpfsProvider =
      .error (.unsupportedProtocol (jstr "ftp:")) := by
  have h := (toHttpsUrl_scheme_handling (jstr "ftp://example.com/x") defaultIpfsProvider
      ⟨jstr "ftp", some (jstr "example.com"), jstr "/x", [], []⟩ (by decide)).2
      (by decide) (by decide) (by decide)
  rw [h]
  rfl

/-- Claim C6, failing input: rewriting `ipfs://cid/path?x=1#y` through the
gateway `https://ipfs.io/` does not preserve the content identifier. The
relative URL built from the original's pathname starts with `/`, so WHATWG
resolution against the gateway base discards the base's `/ipfs/cid` path:
the code yields `https://ipfs.io/path?x=1#y`, not the claimed
`https://ipfs.io/ipfs/cid/path?x=1#y`. -/
theorem toHttpsUrl_ipfs_drops_cid_on_path :
    (toHttpsUrl (jstr "ipfs://cid/path?x=1#y") (jstr "https://ipfs.io/")).map urlHref =
      .ok (jstr "https://ipfs.io/path?x=1#y") ∧
    (toHttpsUrl (jstr "ipfs://cid/path?x=1#y") (jstr "https://ipfs.io/")).map urlHref ≠
      .ok (jstr "https://ipfs.io/ipfs/cid/path?x=1#y") := by
  refine ⟨rfl, fun h => ?_⟩
  have h2 : jstr "https://ipfs.io/path?x=1#y" = jstr "https://ipfs.io/ipfs/cid/path?x=1#y" :=
    Except.ok.inj h
  exact absurd h2 (by decide)

/-- Claim C2, counterexample: a single call whose variadic source list
repeats a string inserts it twice, because the dedup check runs against the
logo list as it stood at the start of the call. This contradicts "across any
sequence of calls each src string occurs at most once". -/
theorem addTokenLogoImageSources_dup_single_call :
    getTokenFromAddress
        (addTokenLogoImageSources emptyStore
          ⟨1, jstr "0x6B175474E89094C44Da98b954EedeAC495271d0F"⟩ [jstr "a", jstr "a"]).1
        ⟨1, jstr "0x6B175474E89094C44Da98b954EedeAC495271d0F"⟩ =
      some ⟨[⟨jstr "a"⟩, ⟨jstr "a"⟩]⟩ := by
  decide

/-- Claim C2, amended: `addTokenLogoImageSources` deduplicates by exact
case-sensitive match against the entry's logo list as of the start of the
call, preserves prior insertion order (the old list is a prefix of the new
one, with skipped-or-appended sources following in call order), and is
idempotent. Consequently each src occurs at most once across any sequence of
calls whose per-call source lists are duplicate-free; a single call that
repeats a source may insert duplicates. -/
theorem addTokenLogoImageSources_dedup_idem (store : TokenMetadataStore) (ca : ChainAddress)
    (srcs : List JSString) (hwf : StoreWF store) :
    (addTokenLogoImageSources (addTokenLogoImageSources store ca srcs).1 ca srcs =
      addTokenLogoImageSources store ca srcs) ∧
    (∀ md, getTokenFromAddress store ca = some md →
      getTokenFromAddress (addTokenLogoImageSources store ca srcs).1 ca =
        some ⟨md.logoImages ++
          (srcs.filter (fun src => md.logoImages.all (fun image => !(image.src == src)))).map
            (fun src => ⟨src⟩)⟩) ∧
    (getTokenFromAddress store ca = none →
      getTokenFromAddress (addTokenLogoImageSources store ca srcs).1 ca =
        some ⟨mergeLogoImages [] srcs⟩) ∧
    (∀ md md', getTokenFromAddress store ca = some md →
      (md.logoImages.map (fun i => i.src)).Nodup → srcs.Nodup →
      getTokenFromAddress (addTokenLogoImageSources store ca srcs).1 ca = some md' →
      (md'.logoImages.map (fun i => i.src)).Nodup) := by
  refine ⟨addTokenLogoImageSources_idem store ca srcs, ?_, ?_, ?_⟩
  · intro md hmd
    obtain ⟨hdl, hm, hh⟩ := getTokenFromAddress_eq_some hmd
    exact getTokenFromAddress_add_found srcs hm hh
  · intro hnone
    exact getTokenFromAddress_add_notFound srcs
      (mapGet_eq_none_of_getTokenFromAddress hwf hnone)
  · intro md md' hmd hnd hnds hmd'
    obtain ⟨hdl, hm, hh⟩ := getTokenFromAddress_eq_some hmd
    rw [getTokenFromAddress_add_found srcs hm hh] at hmd'
    have : md' = ⟨mergeLogoImages md.logoImages srcs⟩ := (Option.some.inj hmd').symm
    rw [this]
    exact mergeLogoImages_nodup md.logoImages srcs hnd hnds

/-- Claim C2 amended, witness: idempotence and fresh-entry insertion on the
empty store. -/
theorem addTokenLogoImageSources_dedup_idem_witness :
    (addTokenLogoImageSources
        (addTokenLogoImageSources emptyStore
          ⟨1, jstr "0x6B175474E89094C44Da98b954EedeAC495271d0F"⟩ [jstr "s"]).1
        ⟨1, jstr "0x6B175474E89094C44Da98b954EedeAC495271d0F"⟩ [jstr "s"] =
      addTokenLogoImageSources emptyStore
        ⟨1, jstr "0x6B175474E89094C44Da98b954EedeAC495271d0F"⟩ [jstr "s"]) ∧
    (getTokenFromAddress emptyStore
        ⟨1, jstr "0x6B175474E89094C44Da98b954EedeAC495271d0F"⟩ = none →
      getTokenFromAddress
          (addTokenLogoImageSources emptyStore
            ⟨1, jstr "0x6B175474E89094C44Da98b954EedeAC495271d0F"⟩ [jstr "s"]).1
          ⟨1, jstr "0x6B175474E89094C44Da98b954EedeAC495271d0F"⟩ =
        some ⟨mergeLogoImages [] [jstr "s"]⟩) :=
  ⟨(addTokenLogoImageSources_dedup_idem emptyStore _ _
      (fun e he => absurd he (List.not_mem_nil e))).1,
    (addTokenLogoImageSources_dedup_idem emptyStore _ _
      (fun e he => absurd he (List.not_mem_nil e))).2.2.1⟩

/-- Claim C7, counterexample: neither operation canonicalizes or validates.
With the malformed address `0xnotanaddress` (not 40 hex digits),
`addTokenLogoImageSources` does not fail — it silently creates an entry
under the key `1_notanaddress` derived from the malformed address, and
`getTokenFromAddress` silently looks it up. -/
theorem addTokenLogoImageSources_malformed_no_error :
    viemIsAddress (jstr "0xnotanaddress") = false ∧
    (addTokenLogoImageSources emptyStore ⟨1, jstr "0xnotanaddress"⟩ [jstr "s"]).1.tokensByAddress =
      [(jstr "1_notanaddress", 0)] ∧
    getTokenFromAddress
        (addTokenLogoImageSources emptyStore ⟨1, jstr "0xnotanaddress"⟩ [jstr "s"]).1
        ⟨1, jstr "0xnotanaddress"⟩ = some ⟨[⟨jstr "s"⟩]⟩ := by
  refine ⟨?_, ?_, ?_⟩ <;> decide

/-- Claim C7, amended: `addTokenLogoImageSources` and `getTokenFromAddress`
perform no canonicalization and never fail. Both key the supplied address
verbatim through the total `getChainAddressKey` (chain ID, `_`, the address
minus its first two characters), for malformed addresses as much as valid
ones: after an add, the entry exists under that key and a lookup with the
same chain address returns metadata containing the source. -/
theorem store_operations_total_no_canonicalization (store : TokenMetadataStore)
    (ca : ChainAddress) (src : JSString) (hwf : StoreWF store) :
    getChainAddressKey ca =
      natToDecimalChars ca.chainId ++ jstr "_" ++ ca.address.drop 2 ∧
    mapGet (addTokenLogoImageSources store ca [src]).1.tokensByAddress
      (getChainAddressKey ca) = some (addTokenLogoImageSources store ca [src]).2 ∧
    ∃ md, getTokenFromAddress (addTokenLogoImageSources store ca [src]).1 ca = some md ∧
      (⟨src⟩ : LogoImage) ∈ md.logoImages := by
  refine ⟨rfl, ?_, ?_⟩
  · match hm : mapGet store.tokensByAddress (getChainAddressKey ca) with
    | some hdl =>
      rw [addTokenLogoImageSources_found store ca [src] hdl hm]
      exact hm
    | none =>
      rw [addTokenLogoImageSources_notFound store ca [src] hm]
      exact mapGet_mapSet_self _ _ _
  · match hm : mapGet store.tokensByAddress (getChainAddressKey ca) with
    | some hdl =>
      obtain ⟨md, hh⟩ := getElem?_isSome_of_mapGet hwf hm
      rw [getTokenFromAddress_add_found [src] hm hh]
      exact ⟨_, rfl, mem_mergeLogoImages _ _ src (by simp)⟩
    | none =>
      rw [getTokenFromAddress_add_notFound [src] hm]
      exact ⟨_, rfl, mem_mergeLogoImages _ _ src (by simp)⟩

/-- Claim C7 amended, witness: on a malformed address the add-then-get round
trip succeeds with the source present. -/
theorem store_operations_total_no_canonicalization_witness :
    ∃ md, getTokenFromAddress
        (addTokenLogoImageSources emptyStore ⟨1, jstr "zz"⟩ [jstr "s"]).1 ⟨1, jstr "zz"⟩ =
      some md ∧ (⟨jstr "s"⟩ : LogoImage) ∈ md.logoImages :=
  (store_operations_total_no_canonicalization emptyStore ⟨1, jstr "zz"⟩ (jstr "s")
    (fun e he => absurd he (List.not_mem_nil e))).2.2

/-- Claim C3: for each declared bridge target, the alias to the canonical
token's metadata object (`tokenMetadataHandle`) is installed only when the
bridged key has no entry yet; when the key is already populated it keeps
pointing at its pre-existing (possibly different) object, and in every case
`addTokenLogoImageSources` runs for the bridged chain-address, so the object
the key points at afterwards contains the token's logoURI among its
sources. -/
theorem processBridgeEntry_alias_semantics (store : TokenMetadataStore) (logoURI : JSString)
    (tokenMetadataHandle : Nat) (entry : Nat × JSString) (hwf : StoreWF store) :
    (mapGet store.tokensByAddress (getChainAddressKey ⟨entry.1, entry.2⟩) = none →
      mapGet (processBridgeEntry logoURI tokenMetadataHandle store entry).tokensByAddress
          (getChainAddressKey ⟨entry.1, entry.2⟩) = some tokenMetadataHandle ∧
      (∀ md, store.heap[tokenMetadataHandle]? = some md →
        (processBridgeEntry logoURI tokenMetadataHandle store entry).heap[tokenMetadataHandle]? =
          some ⟨mergeLogoImages md.logoImages [logoURI]⟩)) ∧
    (∀ h₀, mapGet store.tokensByAddress (getChainAddressKey ⟨entry.1, entry.2⟩) = some h₀ →
      mapGet (processBridgeEntry logoURI tokenMetadataHandle store entry).tokensByAddress
          (getChainAddressKey ⟨entry.1, entry.2⟩) = some h₀ ∧
      ∃ md, store.heap[h₀]? = some md ∧
        (processBridgeEntry logoURI tokenMetadataHandle store entry).heap[h₀]? =
          some ⟨mergeLogoImages md.logoImages [logoURI]⟩ ∧
        (⟨logoURI⟩ : LogoImage) ∈ mergeLogoImages md.logoImages [logoURI]) := by
  constructor
  · intro hm
    unfold processBridgeEntry
    dsimp only
    rw [hm]
    simp only [Option.isSome_none, Bool.false_eq_true, if_false]
    have hm2 : mapGet
        (TokenMetadataStore.mk store.tokenLists
          (mapSet store.tokensByAddress (getChainAddressKey ⟨entry.1, entry.2⟩)
            tokenMetadataHandle)
          store.heap).tokensByAddress
        (getChainAddressKey ⟨entry.1, entry.2⟩) = some tokenMetadataHandle :=
      mapGet_mapSet_self _ _ _
    constructor
    · rw [addTokenLogoImageSources_found _ _ _ _ hm2]
      dsimp only
      exact mapGet_mapSet_self _ _ _
    · intro md hmd
      exact (addTokenLogoImageSources_found_parts [logoURI] hm2 hmd).2.2
  · intro h₀ hm
    unfold processBridgeEntry
    dsimp only
    rw [hm]
    simp only [Option.isSome_some, if_true]
    obtain ⟨md, hmd⟩ := getElem?_isSome_of_mapGet hwf hm
    have hparts := addTokenLogoImageSources_found_parts [logoURI] hm hmd
    refine ⟨?_, md, hmd, hparts.2.2, mem_mergeLogoImages _ _ _ (by simp)⟩
    rw [hparts.1]
    exact hm

/-- Claim C3, witness: on a store holding one canonical object, a fresh
bridged key is aliased to the canonical handle and receives the logo. -/
theorem processBridgeEntry_alias_semantics_witness :
    mapGet (processBridgeEntry (jstr "https://l/x.png") 0
        (TokenMetadataStore.mk [] [] [⟨[]⟩]) (8453, jstr "0xbb")).tokensByAddress
      (getChainAddressKey ⟨8453, jstr "0xbb"⟩) = some 0 ∧
    (processBridgeEntry (jstr "https://l/x.png") 0
        (TokenMetadataStore.mk [] [] [⟨[]⟩]) (8453, jstr "0xbb")).heap[0]? =
      some ⟨mergeLogoImages [] [jstr "https://l/x.png"]⟩ :=
  ⟨((processBridgeEntry_alias_semantics (TokenMetadataStore.mk [] [] [⟨[]⟩])
      (jstr "https://l/x.png") 0 (8453, jstr "0xbb")
      (fun e he => absurd he (List.not_mem_nil e))).1 rfl).1,
    ((processBridgeEntry_alias_semantics (TokenMetadataStore.mk [] [] [⟨[]⟩])
      (jstr "https://l/x.png") 0 (8453, jstr "0xbb")
      (fun e he => absurd he (List.not_mem_nil e))).1 rfl).2 ⟨[]⟩ rfl⟩

/-- Claim C10: a validated token whose `logoURI` is absent or does not start
with the literal `https://` leaves the store completely unchanged — no entry
for the token's own chain-address, no bridge aliasing, no logo sources,
because the entire bridging step sits inside the logoURI guard. -/
theorem processToken_skips_non_https (store : TokenMetadataStore) (token : TokenInfo)
    (h : token.logoURI = none ∨ ∀ lg, token.logoURI = some lg → isHttpsUrl lg = false) :
    processToken store token = store := by
  unfold processToken
  match ht : token.logoURI with
  | none => rfl
  | some lg =>
    dsimp only
    rcases h with h | h
    · rw [ht] at h
      exact Option.noConfusion h
    · rw [h lg ht]
      rfl

/-- Claim C10, witness: a token carrying only an `ipfs://` logo URI (and a
bridge declaration) is skipped entirely. -/
theorem processToken_skips_non_https_witness :
    processToken emptyStore
        ⟨1, jstr "0x6B175474E89094C44Da98b954EedeAC495271d0F", jstr "Dai", jstr "DAI", 18,
          some (jstr "ipfs://cid/dai.png"),
          some [(8453, jstr "0x50c5725949A6F0c72E6C4a641F24049A917DB0Cb")]⟩ =
      emptyStore :=
  processToken_skips_non_https emptyStore _
    (Or.inr (fun lg hlg => by rw [← Option.some.inj hlg]; decide))

/-- Claim C5: when the fetched document fails schema validation,
`fetchTokensFromList` fails with the validation error and returns the store
untouched (in particular, the fetched URL's list metadata stays absent if it
was absent). When validation succeeds, the call succeeds, the token maps are
exactly those produced by processing every validated token, and only then is
the list metadata recorded (or overwritten) under the fetched URL's href —
mid-processing failures cannot occur in this code path, so no rollback
question arises for token merges. -/
theorem fetchTokensFromList_validation_atomic (store : TokenMetadataStore)
    (url : URLRecord) (resp : FetchResponse) :
    (resp.ok = true → validateTokenList resp.body = none →
      fetchTokensFromList store url resp = (.error .validation, store)) ∧
    (∀ output, resp.ok = true → validateTokenList resp.body = some output →
      (fetchTokensFromList store url resp).1 = .ok () ∧
      (fetchTokensFromList store url resp).2.tokensByAddress =
        (output.tokens.foldl processToken store).tokensByAddress ∧
      (fetchTokensFromList store url resp).2.heap =
        (output.tokens.foldl processToken store).heap ∧
      getTokenListMetadata (fetchTokensFromList store url resp).2 url =
        some ⟨output.name, output.timestamp, output.version, urlHref url⟩) := by
  constructor
  · intro hok hv
    unfold fetchTokensFromList
    rw [hok, hv]
    rfl
  · intro output hok hv
    unfold fetchTokensFromList
    rw [hok, hv]
    dsimp only
    refine ⟨rfl, rfl, rfl, ?_⟩
    unfold getTokenListMetadata recordTokenList
    exact mapGet_mapSet_self _ _ _

/-- Claim C5, witness: a document whose `tokens` array is empty fails
validation and leaves the empty store untouched. -/
theorem fetchTokensFromList_validation_atomic_witness :
    fetchTokensFromList emptyStore
        ⟨jstr "https", some (jstr "example.com"), jstr "/list.json", [], []⟩
        ⟨true, jstr "OK", ⟨jstr "Empty", jstr "2024-12-12T18:01:30.180Z", ⟨1, 0, 0⟩, []⟩⟩ =
      (.error .validation, emptyStore) :=
  (fetchTokensFromList_validation_atomic emptyStore
      ⟨jstr "https", some (jstr "example.com"), jstr "/list.json", [], []⟩
      ⟨true, jstr "OK", ⟨jstr "Empty", jstr "2024-12-12T18:01:30.180Z", ⟨1, 0, 0⟩, []⟩⟩).1
    rfl (by decide)

theorem fetchTokensFromList_success_parts (store : TokenMetadataStore) (url : URLRecord)
    (resp : FetchResponse) (output : TokenList)
    (hok : resp.ok = true) (hv : validateTokenList resp.body = some output) :
    fetchTokensFromList store url resp =
      (.ok (), recordTokenList (output.tokens.foldl processToken store) (urlHref url) output) := by
  unfold fetchTokensFromList
  rw [hok, hv]
  rfl

theorem key1_eq (b : JSString) :
    getChainAddressKey ⟨1, b⟩ = 49 :: 95 :: b.drop 2 := by
  unfold getChainAddressKey
  dsimp only
  rw [show natToDecimalChars 1 = [49] from rfl, show jstr "_" = [95] from rfl]
  simp

theorem key8453_eq (b : JSString) :
    getChainAddressKey ⟨8453, b⟩ = 56 :: 52 :: 53 :: 51 :: 95 :: b.drop 2 := by
  unfold getChainAddressKey
  dsimp only
  rw [show natToDecimalChars 8453 = [56, 52, 53, 51] from rfl,
    show jstr "_" = [95] from rfl]
  simp

theorem key_one_ne_key_8453 (a b : JSString) :
    getChainAddressKey ⟨1, a⟩ ≠ getChainAddressKey ⟨8453, b⟩ := by
  rw [key1_eq, key8453_eq]
  intro h
  simp at h

theorem processToken_single_bridge (token : TokenInfo) (lg baddr : JSString)
    (hcid : token.chainId = 1)
    (hlg : token.logoURI = some lg)
    (hhttps : isHttpsUrl lg = true)
    (hbr : token.bridgeInfo = some [(8453, baddr)]) :
    processToken emptyStore token =
      ⟨[], [(getChainAddressKey ⟨1, token.address⟩, 0),
            (getChainAddressKey ⟨8453, baddr⟩, 0)], [⟨[⟨lg⟩]⟩]⟩ := by
  rw [key1_eq, key8453_eq]
  unfold processToken
  rw [hlg]
  dsimp only
  rw [hhttps]
  simp only [if_true]
  rw [hcid]
  rw [addTokenLogoImageSources_notFound emptyStore ⟨1, token.address⟩ [lg] rfl]
  dsimp only
  rw [hbr]
  dsimp only [List.foldl]
  unfold processBridgeEntry
  simp only [emptyStore, List.length_nil]
  rw [key1_eq, key8453_eq]
  have hget2 : mapGet [((49 :: 95 :: token.address.drop 2 : JSString), 0)]
      (56 :: 52 :: 53 :: 51 :: 95 :: baddr.drop 2) = none := rfl
  have hms0 : mapSet ([] : List (JSString × Nat))
      (49 :: 95 :: token.address.drop 2) 0 =
      [((49 :: 95 :: token.address.drop 2 : JSString), 0)] := rfl
  rw [hms0, hget2]
  simp only [Option.isSome_none, Bool.false_eq_true, if_false]
  have hms1 : mapSet [((49 :: 95 :: token.address.drop 2 : JSString), 0)]
      (56 :: 52 :: 53 :: 51 :: 95 :: baddr.drop 2) 0 =
      [((49 :: 95 :: token.address.drop 2 : JSString), 0),
       ((56 :: 52 :: 53 :: 51 :: 95 :: baddr.drop 2 : JSString), 0)] := rfl
  rw [hms1]
  have hget3 : mapGet
      [((49 :: 95 :: token.address.drop 2 : JSString), 0),
       ((56 :: 52 :: 53 :: 51 :: 95 :: baddr.drop 2 : JSString), 0)]
      (56 :: 52 :: 53 :: 51 :: 95 :: baddr.drop 2) = some 0 := by
    simp [mapGet, List.find?]
  have hget3' : mapGet
      (TokenMetadataStore.mk []
        [((49 :: 95 :: token.address.drop 2 : JSString), 0),
         ((56 :: 52 :: 53 :: 51 :: 95 :: baddr.drop 2 : JSString), 0)]
        ([] ++ [⟨mergeLogoImages [] [lg]⟩])).tokensByAddress
      (56 :: 52 :: 53 :: 51 :: 95 :: baddr.drop 2) = some 0 := hget3
  rw [addTokenLogoImageSources_found _ ⟨8453, baddr⟩ [lg] 0 ?hkey]
  case hkey =>
    rw [key8453_eq]
    exact hget3'
  dsimp only
  have hmerge0 : mergeLogoImages [] [lg] = [⟨lg⟩] := rfl
  rw [hmerge0]
  have hmerge1 : mergeLogoImages ((([] ++ [(⟨[⟨lg⟩]⟩ : TokenMetadata)]).getD 0 ⟨[]⟩).logoImages)
      [lg] = [⟨lg⟩] := by
    have hg : (([] ++ [(⟨[⟨lg⟩]⟩ : TokenMetadata)]).getD 0 ⟨[]⟩) = ⟨[⟨lg⟩]⟩ := rfl
    rw [hg]
    exact mergeLogoImages_sub _ _
      (fun src hs => by rw [List.mem_singleton.mp hs]; exact List.mem_singleton.mpr rfl)
  rw [hmerge1]
  rfl

/-- Claim C4, end-to-end: starting from a fresh store, fetching a valid
one-token list whose token has chain ID 1, an `https` logoURI, and a bridge
declaration mapping chain `8453` to a bridged token address, succeeds; both
the token's own chain-address and the bridged chain-address then resolve to
metadata whose logo images contain the logoURI, and `tokenLists` holds
exactly one entry carrying the list's name, timestamp, version and the
fetched URL's href. -/
theorem fetchTokensFromList_end_to_end (url : URLRecord) (resp : FetchResponse)
    (output : TokenList) (token : TokenInfo) (lg baddr : JSString)
    (hok : resp.ok = true)
    (hv : validateTokenList resp.body = some output)
    (htoks : output.tokens = [token])
    (hcid : token.chainId = 1)
    (hlg : token.logoURI = some lg)
    (hhttps : isHttpsUrl lg = true)
    (hbr : token.bridgeInfo = some [(8453, baddr)]) :
    (fetchTokensFromList emptyStore url resp).1 = .ok () ∧
    (∃ md, getTokenFromAddress (fetchTokensFromList emptyStore url resp).2
        ⟨1, token.address⟩ = some md ∧ (⟨lg⟩ : LogoImage) ∈ md.logoImages) ∧
    (∃ md, getTokenFromAddress (fetchTokensFromList emptyStore url resp).2
        ⟨8453, baddr⟩ = some md ∧ (⟨lg⟩ : LogoImage) ∈ md.logoImages) ∧
    tokenListsGetter (fetchTokensFromList emptyStore url resp).2 =
      [⟨output.name, output.timestamp, output.version, urlHref url⟩] := by
  have hfetch := fetchTokensFromList_success_parts emptyStore url resp output hok hv
  rw [htoks] at hfetch
  have hfold : (([token] : List TokenInfo).foldl processToken emptyStore) =
      processToken emptyStore token := rfl
  rw [hfold, processToken_single_bridge token lg baddr hcid hlg hhttps hbr] at hfetch
  rw [hfetch]
  dsimp only
  unfold recordTokenList
  dsimp only
  have hrec : mapSet ([] : List (JSString × TokenListMetadata)) (urlHref url)
      ⟨output.name, output.timestamp, output.version, urlHref url⟩ =
      [(urlHref url, ⟨output.name, output.timestamp, output.version, urlHref url⟩)] := rfl
  rw [hrec]
  refine ⟨rfl, ?_, ?_, rfl⟩
  · unfold getTokenFromAddress
    dsimp only
    rw [key1_eq, key8453_eq]
    have hg : mapGet
        [((49 :: 95 :: token.address.drop 2 : JSString), 0),
         ((56 :: 52 :: 53 :: 51 :: 95 :: baddr.drop 2 : JSString), 0)]
        (49 :: 95 :: token.address.drop 2) = some 0 := by
      simp [mapGet, List.find?]
    rw [hg]
    exact ⟨⟨[⟨lg⟩]⟩, rfl, List.mem_singleton.mpr rfl⟩
  · unfold getTokenFromAddress
    dsimp only
    rw [key1_eq, key8453_eq]
    have hg : mapGet
        [((49 :: 95 :: token.address.drop 2 : JSString), 0),
         ((56 :: 52 :: 53 :: 51 :: 95 :: baddr.drop 2 : JSString), 0)]
        (56 :: 52 :: 53 :: 51 :: 95 :: baddr.drop 2) = some 0 := by
      simp [mapGet, List.find?]
    rw [hg]
    exact ⟨⟨[⟨lg⟩]⟩, rfl, List.mem_singleton.mpr rfl⟩

/-- Claim C4, witness: the spec's DAI example, run on a fresh store. -/
theorem fetchTokensFromList_end_to_end_witness :
    (fetchTokensFromList emptyStore exampleListUrl ⟨true, jstr "OK", exampleRawList⟩).1 =
      .ok () ∧
    (∃ md, getTokenFromAddress
        (fetchTokensFromList emptyStore exampleListUrl ⟨true, jstr "OK", exampleRawList⟩).2
        ⟨1, daiAddress⟩ = some md ∧ (⟨daiLogoURI⟩ : LogoImage) ∈ md.logoImages) ∧
    (∃ md, getTokenFromAddress
        (fetchTokensFromList emptyStore exampleListUrl ⟨true, jstr "OK", exampleRawList⟩).2
        ⟨8453, daiBaseAddress⟩ = some md ∧ (⟨daiLogoURI⟩ : LogoImage) ∈ md.logoImages) ∧
    tokenListsGetter
        (fetchTokensFromList emptyStore exampleListUrl ⟨true, jstr "OK", exampleRawList⟩).2 =
      [⟨jstr "Test List", jstr "2024-12-12T18:01:30.180Z", ⟨1, 0, 0⟩,
        urlHref exampleListUrl⟩] :=
  fetchTokensFromList_end_to_end exampleListUrl ⟨true, jstr "OK", exampleRawList⟩
    exampleTokenList
    ⟨1, daiAddress, jstr "Dai", jstr "DAI", 18, some daiLogoURI, some [(8453, daiBaseAddress)]⟩
    daiLogoURI daiBaseAddress rfl (by decide) rfl rfl rfl (by decide) rfl
